import Mathlib

/-!
Verification development for the runtime core of the async ratatui
application template (`src/app.rs`) and for the path-validation helper
(`src/utils.rs`).

The concurrent runtime (`App::run`, `App::spawn_tui_task`,
`App::spawn_event_task`) is embedded as deterministic functions over
explicit schedules.  The shared `Home` model lives in
`src/components/home.rs`, which is not part of the translated sources, so
its operations are abstracted: a state type `σ` together with a
`dispatch : σ → Action → σ × Option Action` function and a
`shouldQuit : σ → Bool` flag reader.  Every theorem about the runtime loop
is therefore quantified over all possible `Home` behaviours.  The tokio
unbounded action channel is a FIFO list; concurrent sends by the event
task are modelled by an arrival schedule handing the loop one batch of
externally produced actions per `try_recv` call, plus a list of actions
that arrive only after the final drain (the event task keeps running until
it observes its stop signal, so such sends are possible in the real
program).  Fuel parameters make the possibly diverging loops total; a
`none` result means the run did not finish within the given fuel.
-/

namespace App

/-- Action is the `Action` enum of `src/app.rs` (derives `PartialEq, Eq`,
used by the `action != Action::Tick` check in `run`). -/
inductive Action where
  | Quit
  | Tick
  | Resize (w h : Nat)
  | ToggleShowLogger
  | ScheduleIncrementCounter
  | ScheduleDecrementCounter
  | AddToCounter (n : Nat)
  | SubtractFromCounter (n : Nat)
  | EnterNormal
  | EnterInsert
  | EnterProcessing
  | ExitProcessing
  | Update
  | Noop
  deriving DecidableEq, Repr

/-- HomeModel abstracts the `Home` component used by `App::run`: its
`dispatch(action) -> Option<Action>` method (which mutates the locked
state and may return a follow-up action) and its `should_quit` flag. -/
structure HomeModel (σ : Type) where
  dispatch : σ → Action → σ × Option Action
  shouldQuit : σ → Bool

/-- REv is the alphabet of observable events of one execution of
`App::run`: installing the producer handle (`self.home.lock().await.tx =
Some(tx.clone())`), calling `init()`, spawning the two background tasks,
emitting a `trace_dbg!` diagnostic, calling `dispatch` (recording the
state after the call and the returned follow-up), sending the two oneshot
stop signals, awaiting the two join handles, and reaching `Ok(())`. -/
inductive REv (σ : Type) where
  | setTxEv
  | initEv
  | spawnTuiEv
  | spawnEventEv
  | traceEv (a : Action)
  | dispatchEv (a : Action) (after : σ) (fu : Option Action)
  | stopTuiEv
  | stopEventEv
  | awaitTuiEv
  | awaitEventEv
  | retEv
  deriving DecidableEq, Repr

/-- drainCycle is the inner `while maybe_action.is_some()` loop of
`App::run`: it pops the queue until a `try_recv` finds it empty, traces
every non-`Tick` action, dispatches it, and re-enqueues the follow-up
action returned by `dispatch` at the back of the queue (`tx.send`).
`arr` schedules the batch of actions the event task has concurrently
pushed before each successive `try_recv`; the batches it did not get to
consume are returned.  `none` means the fuel ran out. -/
def drainCycle {σ : Type} (M : HomeModel σ) :
    Nat → σ → List Action → List (List Action) →
      Option (σ × List (REv σ) × List (List Action))
  | 0, _, _, _ => none
  | fuel + 1, s, q, arr =>
    match q ++ arr.headD [] with
    | [] => some (s, [], arr.tail)
    | a :: rest =>
      match drainCycle M fuel (M.dispatch s a).1
          (rest ++ (M.dispatch s a).2.toList) arr.tail with
      | none => none
      | some (s2, tr, arrRem) =>
        some (s2,
          (if a = Action.Tick then [] else [REv.traceEv a]) ++
            REv.dispatchEv a (M.dispatch s a).1 (M.dispatch s a).2 :: tr,
          arrRem)

/-- RunEnv collects the environment of one `App::run` execution: the
abstract `Home` behaviour, the result of `init()`, the results of
awaiting the two task join handles, and whether the receiver half of each
oneshot stop channel is still alive when the quit path sends on it. -/
structure RunEnv (σ E : Type) where
  M : HomeModel σ
  initRes : Except E Unit
  tuiJoin : Except E Unit
  eventJoin : Except E Unit
  tuiRecvAlive : Bool
  eventRecvAlive : Bool

/-- oneshotSend models `tokio::sync::oneshot::Sender::send`, which fails
exactly when the receiver has been dropped. -/
def oneshotSend (receiverAlive : Bool) : Except Unit Unit :=
  if receiverAlive then Except.ok () else Except.error ()

/-- unwrapOr models `Result::unwrap_or`: the error is discarded. -/
def unwrapOr {ε α : Type} (r : Except ε α) (d : α) : α :=
  match r with
  | Except.ok a => a
  | Except.error _ => d

/-- shutdownPhase is the quit branch of `App::run`:
`stop_tui_tx.send(()).unwrap_or(())`, `stop_event_tx.send(()).unwrap_or(())`,
`tui_task.await?`, `event_task.await?`, `break` and `Ok(())`.  Both send
results are discarded by `unwrap_or`; the first failing join aborts with
`?`, so a failing tui join leaves the event task unawaited. -/
def shutdownPhase {σ E : Type} (env : RunEnv σ E) : Except E Unit × List (REv σ) :=
  let _u1 : Unit := unwrapOr (oneshotSend env.tuiRecvAlive) ()
  let _u2 : Unit := unwrapOr (oneshotSend env.eventRecvAlive) ()
  match env.tuiJoin with
  | Except.error e =>
    (Except.error e, [REv.stopTuiEv, REv.stopEventEv, REv.awaitTuiEv])
  | Except.ok _ =>
    match env.eventJoin with
    | Except.error e =>
      (Except.error e,
        [REv.stopTuiEv, REv.stopEventEv, REv.awaitTuiEv, REv.awaitEventEv])
    | Except.ok _ =>
      (Except.ok (),
        [REv.stopTuiEv, REv.stopEventEv, REv.awaitTuiEv, REv.awaitEventEv,
          REv.retEv])

/-- runLoop is the outer `loop` of `App::run`: drain the whole queue, then
check `should_quit` under the lock; if it is set, run the shutdown phase
(`shut` is its precomputed outcome) and stop, otherwise iterate again
immediately.  The queue is empty at the start of every cycle because the
previous drain only stops on an empty `try_recv`. -/
def runLoop {σ E : Type} (M : HomeModel σ) (shut : Except E Unit × List (REv σ)) :
    Nat → Nat → σ → List (List Action) →
      Option (Except E Unit × List (REv σ) × List (List Action))
  | _, 0, _, _ => none
  | dfuel, lfuel + 1, s, arr =>
    match drainCycle M dfuel s [] arr with
    | none => none
    | some (s2, evs, arr2) =>
      if M.shouldQuit s2 then some (shut.1, evs ++ shut.2, arr2)
      else
        match runLoop M shut dfuel lfuel s2 arr2 with
        | none => none
        | some (res, evs2, rem) => some (res, evs ++ evs2, rem)

/-- appRun is `App::run`: create the channel, install the producer handle
in the model, call `init()` (propagating a failure before any task is
spawned), spawn both background tasks, then enter the drain/quit loop.
`late` holds the actions the event task enqueues only after the final
drain has seen the queue empty; together with the unconsumed arrival
batches they form the queue contents still undelivered when `run`
returns. -/
def appRun {σ E : Type} (env : RunEnv σ E) (dfuel lfuel : Nat) (s0 : σ)
    (arr : List (List Action)) (late : List Action) :
    Option (Except E Unit × List (REv σ) × List Action) :=
  match env.initRes with
  | Except.error e => some (Except.error e, [REv.setTxEv, REv.initEv], [])
  | Except.ok _ =>
    match runLoop env.M (shutdownPhase env) dfuel lfuel s0 arr with
    | none => none
    | some (res, evs, rem) =>
      some (res,
        [REv.setTxEv, REv.initEv, REv.spawnTuiEv, REv.spawnEventEv] ++ evs,
        rem.flatten ++ late)

/-- dispatchedOf extracts, in order, the actions passed to `dispatch`. -/
def dispatchedOf {σ : Type} (tr : List (REv σ)) : List Action :=
  tr.filterMap fun e =>
    match e with
    | REv.dispatchEv a _ _ => some a
    | _ => none

/-- followupsOf extracts, in order, the follow-up actions returned by
`dispatch` calls (each is re-enqueued by `tx.send`). -/
def followupsOf {σ : Type} (tr : List (REv σ)) : List Action :=
  tr.filterMap fun e =>
    match e with
    | REv.dispatchEv _ _ fu => fu
    | _ => none

/-- tracedActions extracts, in order, the actions given to `trace_dbg!`. -/
def tracedActions {σ : Type} (tr : List (REv σ)) : List Action :=
  tr.filterMap fun e =>
    match e with
    | REv.traceEv a => some a
    | _ => none

/-- pairLogOf extracts the dispatch log as (action, follow-up) pairs. -/
def pairLogOf {σ : Type} (tr : List (REv σ)) : List (Action × Option Action) :=
  tr.filterMap fun e =>
    match e with
    | REv.dispatchEv a _ fu => some (a, fu)
    | _ => none

/-- stateLogOf extracts the dispatch log as (action, state after) pairs. -/
def stateLogOf {σ : Type} (tr : List (REv σ)) : List (Action × σ) :=
  tr.filterMap fun e =>
    match e with
    | REv.dispatchEv a s _ => some (a, s)
    | _ => none

/-- isDispatchEv recognises dispatch events. -/
def isDispatchEv {σ : Type} : REv σ → Bool
  | REv.dispatchEv _ _ _ => true
  | _ => false

/-- isStopTuiEv recognises the send on the render task's stop channel. -/
def isStopTuiEv {σ : Type} : REv σ → Bool
  | REv.stopTuiEv => true
  | _ => false

/-- isDrainEv recognises the events a drain cycle can emit. -/
def isDrainEv {σ : Type} : REv σ → Bool
  | REv.traceEv _ => true
  | REv.dispatchEv _ _ _ => true
  | _ => false

/-- quitHaltsDispatch checks that no dispatch event follows the first send
on the render task's stop channel (the observable start of shutdown). -/
def quitHaltsDispatch {σ : Type} : List (REv σ) → Bool
  | [] => true
  | e :: rest =>
    if isStopTuiEv e then rest.all fun x => !isDispatchEv x
    else quitHaltsDispatch rest

/-- FollowupLater states that every follow-up returned by a dispatch call
is passed to a strictly later dispatch call of the same run. -/
def FollowupLater : List (Action × Option Action) → Prop
  | [] => True
  | (_, fu) :: rest =>
    (∀ f, fu = some f → f ∈ rest.map Prod.fst) ∧ FollowupLater rest

/-- QuitStopsAllDispatch is the literal reading of the claim that once
`should_quit` is true no further dispatch call occurs: any dispatch whose
post-state has the flag set must be the last dispatch of the run. -/
def QuitStopsAllDispatch {σ : Type} (M : HomeModel σ)
    (L : List (Action × σ)) : Prop :=
  ∀ i (h : i < L.length), M.shouldQuit (L.get ⟨i, h⟩).2 = true →
    i + 1 = L.length

/-- AllEnqueuedDispatchedOnce is the literal reading of the claim that
every action enqueued before `run` returns — arrival batches, actions
arriving after the final drain, and follow-ups — is dispatched exactly
once. -/
def AllEnqueuedDispatchedOnce {σ : Type} (arr : List (List Action))
    (late : List Action) (tr : List (REv σ)) : Prop :=
  ∀ x : Action, List.count x (dispatchedOf tr) =
    List.count x (arr.flatten ++ late) + List.count x (followupsOf tr)

/-- TEv is the alphabet of observable events of the render task spawned by
`App::spawn_tui_task`: entering raw mode, acquiring the model lock,
drawing the frame, the non-blocking `stop_tui_rx.try_recv()` check,
releasing the lock (the guard `h` is dropped at the end of the loop body),
and `tui.exit()`. -/
inductive TEv where
  | enterEv
  | lockEv
  | renderEv
  | checkStopEv
  | unlockEv
  | exitEv
  deriving DecidableEq, Repr

/-- tuiLoop is the `loop` of `App::spawn_tui_task`.  `sig` says, for each
iteration, whether the oneshot stop signal is available to `try_recv`.
Each iteration locks, draws, checks the signal, and only then releases the
lock (the `MutexGuard` lives to the end of the loop body); on a received
signal the loop breaks and `tui.exit()` restores the terminal.  An empty
remaining schedule means the loop is still running: `none`. -/
def tuiLoop : List Bool → Option (List TEv)
  | [] => none
  | stop :: rest =>
    if stop then
      some [TEv.lockEv, TEv.renderEv, TEv.checkStopEv, TEv.unlockEv, TEv.exitEv]
    else
      match tuiLoop rest with
      | none => none
      | some tr =>
        some ([TEv.lockEv, TEv.renderEv, TEv.checkStopEv, TEv.unlockEv] ++ tr)

/-- tuiTask is the whole spawned render task: `tui.enter()` then the loop. -/
def tuiTask (sig : List Bool) : Option (List TEv) :=
  (tuiLoop sig).map fun tr => TEv.enterEv :: tr

/-- tuiChunks characterises the post-`enter` trace shape of the render
task: iterations of lock/render/check/unlock back to back — no timer
delay between them — ended by the raw-mode teardown. -/
def tuiChunks : List TEv → Prop
  | [TEv.exitEv] => True
  | TEv.lockEv :: TEv.renderEv :: TEv.checkStopEv :: TEv.unlockEv :: rest =>
    tuiChunks rest
  | _ => False

/-- ClaimC6Order is the literal reading of the render-task step order
claimed by the spec: on a finished run, the (first) lock release strictly
precedes the (first) shutdown check. -/
def ClaimC6Order : Prop :=
  ∀ (sig : List Bool) (tr : List TEv), tuiTask sig = some tr →
    List.indexOf TEv.unlockEv tr < List.indexOf TEv.checkStopEv tr

/-- EOut is the outcome of the event task of `App::spawn_event_task`:
either it observed its stop signal and stopped the event source, or the
`tx.send(action).unwrap()` panicked, which aborts the task and is
propagated to `run` as an error of its join handle. -/
inductive EOut where
  | stoppedNormally
  | panicked
  deriving DecidableEq, Repr

/-- eventLoop is the `loop` of `App::spawn_event_task`.  Each step is one
iteration: the action the model translated the awaited event into,
whether `tx.send` succeeds (it fails exactly when the queue is closed),
and whether the stop signal is available to the subsequent `try_recv`.
The result is the list of actions actually forwarded to the queue and the
task outcome; `none` means the task is still looping. -/
def eventLoop : List (Action × Bool × Bool) → Option (List Action × EOut)
  | [] => none
  | (a, sendOk, stop) :: rest =>
    if sendOk then
      if stop then some ([a], EOut.stoppedNormally)
      else
        match eventLoop rest with
        | none => none
        | some (sent, out) => some (a :: sent, out)
    else some ([], EOut.panicked)

/-- FsPath abstracts the queries `is_markdown_file` makes of a
`std::path::PathBuf`: `exists()`, `is_file()`, and `extension()`. -/
structure FsPath where
  pathExists : Bool
  isFile : Bool
  extension : Option String
  deriving DecidableEq, Repr

/-- is_markdown_file is `is_markdown_file` from `src/utils.rs`. -/
def is_markdown_file (p : FsPath) : Except String Unit :=
  if !p.pathExists then Except.error "does not exist"
  else if !p.isFile then Except.error "is not a file"
  else
    match p.extension with
    | some ext =>
      if ext == "md" || ext == "qmd" || ext == "rmd" || ext == "markdown" then
        Except.ok ()
      else Except.error "must have a .md or .markdown extension"
    | none => Except.error "must have a .md or .markdown extension"

/-- M0 is a concrete `Home` behaviour for witnesses: `should_quit` is the
whole state and `dispatch(Quit)` sets it. -/
def M0 : HomeModel Bool :=
  { dispatch := fun s a => (if a = Action.Quit then true else s, none),
    shouldQuit := fun s => s }

/-- env0 runs `M0` with successful init and joins. -/
def env0 : RunEnv Bool String :=
  { M := M0, initRes := Except.ok (), tuiJoin := Except.ok (),
    eventJoin := Except.ok (), tuiRecvAlive := true, eventRecvAlive := true }

/-- envFail is `env0` with a failing `init()`. -/
def envFail : RunEnv Bool String :=
  { M := M0, initRes := Except.error "boom", tuiJoin := Except.ok (),
    eventJoin := Except.ok (), tuiRecvAlive := true, eventRecvAlive := true }

/-- envTuiJoinFail is `env0` with a failing render-task join. -/
def envTuiJoinFail : RunEnv Bool String :=
  { M := M0, initRes := Except.ok (), tuiJoin := Except.error "boom",
    eventJoin := Except.ok (), tuiRecvAlive := true, eventRecvAlive := true }

/-- M1 is a concrete `Home` behaviour with a self-scheduling command:
`ScheduleIncrementCounter` returns the follow-up `AddToCounter 1`. -/
def M1 : HomeModel (Bool × Nat) :=
  { dispatch := fun s a =>
      match a with
      | Action.Quit => ((true, s.2), none)
      | Action.ScheduleIncrementCounter =>
        (s, some (Action.AddToCounter 1))
      | Action.AddToCounter n => ((s.1, s.2 + n), none)
      | _ => (s, none),
    shouldQuit := fun s => s.1 }

/-- env1 runs `M1` with successful init and joins. -/
def env1 : RunEnv (Bool × Nat) String :=
  { M := M1, initRes := Except.ok (), tuiJoin := Except.ok (),
    eventJoin := Except.ok (), tuiRecvAlive := true, eventRecvAlive := true }

/-- tail_drop_eq relates dropping after `tail` with dropping one more. -/
theorem tail_drop_eq {α : Type} (l : List α) (k : Nat) :
    l.tail.drop k = l.drop (k + 1) := by
  cases l <;> simp

/-- take_succ_flatten splits the first scheduled batch off a `take`. -/
theorem take_succ_flatten {α : Type} (arr : List (List α)) (k : Nat) :
    (arr.take (k + 1)).flatten = arr.headD [] ++ (arr.tail.take k).flatten := by
  cases arr <;> simp

/-- dispatchedOf distributes over append. -/
theorem dispatchedOf_append {σ : Type} (l r : List (REv σ)) :
    dispatchedOf (l ++ r) = dispatchedOf l ++ dispatchedOf r :=
  List.filterMap_append l r _

/-- followupsOf distributes over append. -/
theorem followupsOf_append {σ : Type} (l r : List (REv σ)) :
    followupsOf (l ++ r) = followupsOf l ++ followupsOf r :=
  List.filterMap_append l r _

/-- tracedActions distributes over append. -/
theorem tracedActions_append {σ : Type} (l r : List (REv σ)) :
    tracedActions (l ++ r) = tracedActions l ++ tracedActions r :=
  List.filterMap_append l r _

/-- pairLogOf distributes over append. -/
theorem pairLogOf_append {σ : Type} (l r : List (REv σ)) :
    pairLogOf (l ++ r) = pairLogOf l ++ pairLogOf r :=
  List.filterMap_append l r _

/-- stateLogOf distributes over append. -/
theorem stateLogOf_append {σ : Type} (l r : List (REv σ)) :
    stateLogOf (l ++ r) = stateLogOf l ++ stateLogOf r :=
  List.filterMap_append l r _

/-- pairLogOf_map_fst projects the pair log to the dispatched actions. -/
theorem pairLogOf_map_fst {σ : Type} :
    ∀ tr : List (REv σ), (pairLogOf tr).map Prod.fst = dispatchedOf tr
  | [] => rfl
  | e :: tr => by
    cases e <;>
      simp [pairLogOf, dispatchedOf, List.filterMap_cons] <;>
      simpa [pairLogOf, dispatchedOf] using pairLogOf_map_fst tr

/-- dispatchedOf of one drain step: the traced prefix contributes nothing
and the dispatch event contributes its action. -/
theorem dispatchedOf_step {σ : Type} (a : Action) (s : σ) (fu : Option Action)
    (l : List (REv σ)) :
    dispatchedOf ((if a = Action.Tick then [] else [REv.traceEv a]) ++
        REv.dispatchEv a s fu :: l) = a :: dispatchedOf l := by
  by_cases h : a = Action.Tick <;> simp [h, dispatchedOf, List.filterMap_cons]

/-- followupsOf of one drain step. -/
theorem followupsOf_step {σ : Type} (a : Action) (s : σ) (fu : Option Action)
    (l : List (REv σ)) :
    followupsOf ((if a = Action.Tick then [] else [REv.traceEv a]) ++
        REv.dispatchEv a s fu :: l) = fu.toList ++ followupsOf l := by
  by_cases h : a = Action.Tick <;> cases fu <;>
    simp [h, followupsOf, List.filterMap_cons]

/-- tracedActions of one drain step. -/
theorem tracedActions_step {σ : Type} (a : Action) (s : σ) (fu : Option Action)
    (l : List (REv σ)) :
    tracedActions ((if a = Action.Tick then [] else [REv.traceEv a]) ++
        REv.dispatchEv a s fu :: l) =
      (if a = Action.Tick then [] else [a]) ++ tracedActions l := by
  by_cases h : a = Action.Tick <;> simp [h, tracedActions, List.filterMap_cons]

/-- pairLogOf of one drain step. -/
theorem pairLogOf_step {σ : Type} (a : Action) (s : σ) (fu : Option Action)
    (l : List (REv σ)) :
    pairLogOf ((if a = Action.Tick then [] else [REv.traceEv a]) ++
        REv.dispatchEv a s fu :: l) = (a, fu) :: pairLogOf l := by
  by_cases h : a = Action.Tick <;> simp [h, pairLogOf, List.filterMap_cons]

/-- stateLogOf of one drain step. -/
theorem stateLogOf_step {σ : Type} (a : Action) (s : σ) (fu : Option Action)
    (l : List (REv σ)) :
    stateLogOf ((if a = Action.Tick then [] else [REv.traceEv a]) ++
        REv.dispatchEv a s fu :: l) = (a, s) :: stateLogOf l := by
  by_cases h : a = Action.Tick <;> simp [h, stateLogOf, List.filterMap_cons]

/-- drainCycle_shape: a drain cycle only emits trace and dispatch events. -/
theorem drainCycle_shape {σ : Type} (M : HomeModel σ) :
    ∀ (fuel : Nat) (s : σ) (q : List Action) (arr : List (List Action))
      {s2 : σ} {tr : List (REv σ)} {rem : List (List Action)},
      drainCycle M fuel s q arr = some (s2, tr, rem) →
      ∀ e ∈ tr, isDrainEv e = true := by
  intro fuel
  induction fuel with
  | zero =>
    intro s q arr s2 tr rem h
    simp [drainCycle] at h
  | succ n ih =>
    intro s q arr s2 tr rem h
    simp only [drainCycle] at h
    split at h
    · simp only [Option.some.injEq, Prod.mk.injEq] at h
      obtain ⟨-, htr, -⟩ := h
      subst htr
      intro e he
      simp at he
    · rename_i a rest heq
      split at h
      · exact absurd h (by simp)
      · rename_i s3 tr2 rem2 heq2
        simp only [Option.some.injEq, Prod.mk.injEq] at h
        obtain ⟨-, htr, -⟩ := h
        subst htr
        intro e he
        rcases List.mem_append.1 he with h1 | h1
        · by_cases ha : a = Action.Tick
          · simp [ha] at h1
          · simp [ha] at h1
            subst h1
            rfl
        · rcases List.mem_cons.1 h1 with h2 | h2
          · subst h2
            rfl
          · exact ih _ _ _ heq2 e h2

/-- drainCycle_mem: every action in the queue at the start of a finished
drain cycle is dispatched during that cycle. -/
theorem drainCycle_mem {σ : Type} (M : HomeModel σ) :
    ∀ (fuel : Nat) (s : σ) (q : List Action) (arr : List (List Action))
      {s2 : σ} {tr : List (REv σ)} {rem : List (List Action)},
      drainCycle M fuel s q arr = some (s2, tr, rem) →
      ∀ x ∈ q, x ∈ dispatchedOf tr := by
  intro fuel
  induction fuel with
  | zero =>
    intro s q arr s2 tr rem h
    simp [drainCycle] at h
  | succ n ih =>
    intro s q arr s2 tr rem h
    simp only [drainCycle] at h
    split at h
    · rename_i heq
      obtain ⟨hq, -⟩ := List.append_eq_nil.1 heq
      subst hq
      intro x hx
      simp at hx
    · rename_i a rest heq
      split at h
      · exact absurd h (by simp)
      · rename_i s3 tr2 rem2 heq2
        simp only [Option.some.injEq, Prod.mk.injEq] at h
        obtain ⟨-, htr, -⟩ := h
        subst htr
        intro x hx
        rw [dispatchedOf_step]
        have hx2 : x ∈ a :: rest := heq ▸ List.mem_append_left (arr.headD []) hx
        rcases List.mem_cons.1 hx2 with h1 | h1
        · exact h1 ▸ List.mem_cons_self _ _
        · exact List.mem_cons_of_mem _
            (ih _ _ _ heq2 x (List.mem_append_left _ h1))

/-- drainCycle_followupLater: within one drain cycle, every follow-up
returned by a dispatch call is dispatched by a strictly later call. -/
theorem drainCycle_followupLater {σ : Type} (M : HomeModel σ) :
    ∀ (fuel : Nat) (s : σ) (q : List Action) (arr : List (List Action))
      {s2 : σ} {tr : List (REv σ)} {rem : List (List Action)},
      drainCycle M fuel s q arr = some (s2, tr, rem) →
      FollowupLater (pairLogOf tr) := by
  intro fuel
  induction fuel with
  | zero =>
    intro s q arr s2 tr rem h
    simp [drainCycle] at h
  | succ n ih =>
    intro s q arr s2 tr rem h
    simp only [drainCycle] at h
    split at h
    · simp only [Option.some.injEq, Prod.mk.injEq] at h
      obtain ⟨-, htr, -⟩ := h
      subst htr
      exact trivial
    · rename_i a rest heq
      split at h
      · exact absurd h (by simp)
      · rename_i s3 tr2 rem2 heq2
        simp only [Option.some.injEq, Prod.mk.injEq] at h
        obtain ⟨-, htr, -⟩ := h
        subst htr
        rw [pairLogOf_step]
        refine ⟨fun f hf => ?_, ih _ _ _ heq2⟩
        rw [pairLogOf_map_fst]
        refine drainCycle_mem M _ _ _ _ heq2 f ?_
        exact List.mem_append_right rest (by simp [hf])

/-- drainCycle_counts: a finished drain cycle consumes a prefix of the
arrival schedule, and dispatch occurrences are exactly the initial queue
plus the consumed batches plus the follow-ups produced on the way. -/
theorem drainCycle_counts {σ : Type} (M : HomeModel σ) :
    ∀ (fuel : Nat) (s : σ) (q : List Action) (arr : List (List Action))
      {s2 : σ} {tr : List (REv σ)} {rem : List (List Action)},
      drainCycle M fuel s q arr = some (s2, tr, rem) →
      ∃ k, rem = arr.drop k ∧ ∀ x : Action,
        List.count x (dispatchedOf tr) =
          List.count x q + List.count x (arr.take k).flatten +
            List.count x (followupsOf tr) := by
  intro fuel
  induction fuel with
  | zero =>
    intro s q arr s2 tr rem h
    simp [drainCycle] at h
  | succ n ih =>
    intro s q arr s2 tr rem h
    simp only [drainCycle] at h
    split at h
    · rename_i heq
      obtain ⟨hq, hh⟩ := List.append_eq_nil.1 heq
      subst hq
      simp only [Option.some.injEq, Prod.mk.injEq] at h
      obtain ⟨-, htr, hrem⟩ := h
      subst htr
      cases arr with
      | nil =>
        refine ⟨0, by simpa using hrem.symm, fun x => by simp [dispatchedOf, followupsOf]⟩
      | cons b t =>
        refine ⟨1, by simpa using hrem.symm, fun x => ?_⟩
        have hb : b = [] := by simpa using hh
        subst hb
        simp [dispatchedOf, followupsOf]
    · rename_i a rest heq
      split at h
      · exact absurd h (by simp)
      · rename_i s3 tr2 rem2 heq2
        simp only [Option.some.injEq, Prod.mk.injEq] at h
        obtain ⟨-, htr, hrem⟩ := h
        subst htr
        obtain ⟨k, hk, hcount⟩ := ih _ _ _ heq2
        refine ⟨k + 1, ?_, fun x => ?_⟩
        · rw [← hrem, hk, tail_drop_eq]
        · have hsplit := congrArg (List.count x) heq
          have hstep := dispatchedOf_step a (M.dispatch s a).1 (M.dispatch s a).2 tr2
          have hfstep := followupsOf_step a (M.dispatch s a).1 (M.dispatch s a).2 tr2
          rw [hstep, hfstep, take_succ_flatten]
          have hc := hcount x
          simp only [List.count_append, List.count_cons, List.count_nil,
            beq_iff_eq] at hc hsplit ⊢
          omega

/-- drainCycle_traced: within one drain cycle, the traced actions are
exactly the dispatched actions other than `Tick`, in order. -/
theorem drainCycle_traced {σ : Type} (M : HomeModel σ) :
    ∀ (fuel : Nat) (s : σ) (q : List Action) (arr : List (List Action))
      {s2 : σ} {tr : List (REv σ)} {rem : List (List Action)},
      drainCycle M fuel s q arr = some (s2, tr, rem) →
      tracedActions tr =
        (dispatchedOf tr).filter fun a => !(a == Action.Tick) := by
  intro fuel
  induction fuel with
  | zero =>
    intro s q arr s2 tr rem h
    simp [drainCycle] at h
  | succ n ih =>
    intro s q arr s2 tr rem h
    simp only [drainCycle] at h
    split at h
    · simp only [Option.some.injEq, Prod.mk.injEq] at h
      obtain ⟨-, htr, -⟩ := h
      subst htr
      rfl
    · rename_i a rest heq
      split at h
      · exact absurd h (by simp)
      · rename_i s3 tr2 rem2 heq2
        simp only [Option.some.injEq, Prod.mk.injEq] at h
        obtain ⟨-, htr, -⟩ := h
        subst htr
        rw [tracedActions_step, dispatchedOf_step, List.filter_cons,
          ih _ _ _ heq2]
        by_cases ha : a = Action.Tick <;> simp [ha]

/-- FollowupLater is preserved by concatenating runs of dispatch logs. -/
theorem FollowupLater_append : ∀ {l r : List (Action × Option Action)},
    FollowupLater l → FollowupLater r → FollowupLater (l ++ r)
  | [], _, _, hr => hr
  | (a, fu) :: rest, r, hl, hr => by
    refine ⟨fun f hf => ?_, FollowupLater_append hl.2 hr⟩
    show f ∈ List.map Prod.fst (rest ++ r)
    rw [List.map_append]
    exact List.mem_append_left _ (hl.1 f hf)

/-- quitHaltsDispatch ignores a prefix without stop-signal events. -/
theorem quitHaltsDispatch_append {σ : Type} :
    ∀ {l r : List (REv σ)}, (∀ e ∈ l, isStopTuiEv e = false) →
      quitHaltsDispatch (l ++ r) = quitHaltsDispatch r
  | [], _, _ => rfl
  | e :: rest, r, h => by
    have he := h e (List.mem_cons_self e rest)
    rw [List.cons_append, quitHaltsDispatch, he]
    simp only [Bool.false_eq_true, if_false]
    exact quitHaltsDispatch_append fun x hx => h x (List.mem_cons_of_mem e hx)

/-- isDrainEv events are not dispatch-stopping or await events. -/
theorem isDrainEv_not_special {σ : Type} (e : REv σ) (h : isDrainEv e = true) :
    isStopTuiEv e = false ∧ e ≠ REv.awaitEventEv := by
  cases e <;> simp_all [isDrainEv, isStopTuiEv]

/-- shutdownPhase emits one of three concrete shutdown traces. -/
theorem shutdownPhase_cases {σ E : Type} (env : RunEnv σ E) :
    (shutdownPhase env).2 =
        [REv.stopTuiEv, REv.stopEventEv, REv.awaitTuiEv] ∨
    (shutdownPhase env).2 =
        [REv.stopTuiEv, REv.stopEventEv, REv.awaitTuiEv, REv.awaitEventEv] ∨
    (shutdownPhase env).2 =
        [REv.stopTuiEv, REv.stopEventEv, REv.awaitTuiEv, REv.awaitEventEv,
          REv.retEv] := by
  unfold shutdownPhase
  cases env.tuiJoin with
  | error e => simp
  | ok u =>
    cases env.eventJoin with
    | error e => simp
    | ok u2 => simp

/-- shutdownPhase traces contain no dispatch, trace, or follow-up data and
always start with the stop signal to the render task. -/
theorem shutdownPhase_no_drain {σ E : Type} (env : RunEnv σ E) :
    dispatchedOf (shutdownPhase env).2 = [] ∧
    followupsOf (shutdownPhase env).2 = [] ∧
    tracedActions (shutdownPhase env).2 = [] ∧
    pairLogOf (shutdownPhase env).2 = [] ∧
    quitHaltsDispatch (shutdownPhase env).2 = true := by
  rcases shutdownPhase_cases env with h | h | h <;> rw [h] <;>
    exact ⟨rfl, rfl, rfl, rfl, rfl⟩

/-- shutdownPhase with a failing render-task join: the error propagates at
the first `?` and the event task is never awaited. -/
theorem shutdownPhase_tuiFail {σ E : Type} (env : RunEnv σ E) (e : E)
    (h : env.tuiJoin = Except.error e) :
    shutdownPhase env =
      (Except.error e, [REv.stopTuiEv, REv.stopEventEv, REv.awaitTuiEv]) := by
  unfold shutdownPhase
  rw [h]

/-- shutdownPhase with a successful render-task join and failing
event-task join. -/
theorem shutdownPhase_eventFail {σ E : Type} (env : RunEnv σ E) (e : E)
    (h1 : env.tuiJoin = Except.ok ()) (h2 : env.eventJoin = Except.error e) :
    shutdownPhase env =
      (Except.error e,
        [REv.stopTuiEv, REv.stopEventEv, REv.awaitTuiEv, REv.awaitEventEv]) := by
  unfold shutdownPhase
  rw [h1, h2]

/-- shutdownPhase with both joins succeeding. -/
theorem shutdownPhase_okOk {σ E : Type} (env : RunEnv σ E)
    (h1 : env.tuiJoin = Except.ok ()) (h2 : env.eventJoin = Except.ok ()) :
    shutdownPhase env =
      (Except.ok (),
        [REv.stopTuiEv, REv.stopEventEv, REv.awaitTuiEv, REv.awaitEventEv,
          REv.retEv]) := by
  unfold shutdownPhase
  rw [h1, h2]

/-- shutdownPhase returns `Ok` only on the branch that awaited both
tasks. -/
theorem shutdownPhase_ok_awaits {σ E : Type} (env : RunEnv σ E)
    (h : (shutdownPhase env).1 = Except.ok ()) :
    REv.awaitTuiEv ∈ (shutdownPhase env).2 ∧
      REv.awaitEventEv ∈ (shutdownPhase env).2 := by
  cases htj : env.tuiJoin with
  | error e =>
    rw [shutdownPhase_tuiFail env e htj] at h
    exact absurd h (by simp)
  | ok u =>
    cases u
    cases hej : env.eventJoin with
    | error e =>
      rw [shutdownPhase_eventFail env e htj hej] at h
      exact absurd h (by simp)
    | ok u2 =>
      cases u2
      rw [shutdownPhase_okOk env htj hej]
      simp

/-- runLoop_struct: a finished run returns the shutdown result, and its
trace is drain events followed by the shutdown trace. -/
theorem runLoop_struct {σ E : Type} (M : HomeModel σ)
    (shut : Except E Unit × List (REv σ)) :
    ∀ (lfuel dfuel : Nat) (s : σ) (arr : List (List Action))
      {res : Except E Unit} {evs : List (REv σ)} {rem : List (List Action)},
      runLoop M shut dfuel lfuel s arr = some (res, evs, rem) →
      res = shut.1 ∧
        ∃ pre, evs = pre ++ shut.2 ∧ ∀ e ∈ pre, isDrainEv e = true := by
  intro lfuel
  induction lfuel with
  | zero =>
    intro dfuel s arr res evs rem h
    simp [runLoop] at h
  | succ n ih =>
    intro dfuel s arr res evs rem h
    simp only [runLoop] at h
    split at h
    · exact absurd h (by simp)
    · rename_i s2 evs0 arr2 heq
      split at h
      · simp only [Option.some.injEq, Prod.mk.injEq] at h
        obtain ⟨hres, hevs, -⟩ := h
        exact ⟨hres.symm, evs0, hevs.symm,
          drainCycle_shape M _ _ _ _ heq⟩
      · split at h
        · exact absurd h (by simp)
        · rename_i res2 evs2 rem2 heq2
          simp only [Option.some.injEq, Prod.mk.injEq] at h
          obtain ⟨hres, hevs, -⟩ := h
          obtain ⟨hres2, pre, hpre, hdrain⟩ := ih _ _ _ heq2
          refine ⟨hres ▸ hres2, evs0 ++ pre, ?_, fun e he => ?_⟩
          · rw [← hevs, hpre, List.append_assoc]
          · rcases List.mem_append.1 he with h1 | h1
            · exact drainCycle_shape M _ _ _ _ heq e h1
            · exact hdrain e h1

/-- runLoop_followupLater: over a whole finished run, every follow-up is
dispatched by a strictly later dispatch call. -/
theorem runLoop_followupLater {σ E : Type} (M : HomeModel σ)
    (shut : Except E Unit × List (REv σ))
    (hp : pairLogOf shut.2 = []) :
    ∀ (lfuel dfuel : Nat) (s : σ) (arr : List (List Action))
      {res : Except E Unit} {evs : List (REv σ)} {rem : List (List Action)},
      runLoop M shut dfuel lfuel s arr = some (res, evs, rem) →
      FollowupLater (pairLogOf evs) := by
  intro lfuel
  induction lfuel with
  | zero =>
    intro dfuel s arr res evs rem h
    simp [runLoop] at h
  | succ n ih =>
    intro dfuel s arr res evs rem h
    simp only [runLoop] at h
    split at h
    · exact absurd h (by simp)
    · rename_i s2 evs0 arr2 heq
      split at h
      · simp only [Option.some.injEq, Prod.mk.injEq] at h
        obtain ⟨-, hevs, -⟩ := h
        rw [← hevs, pairLogOf_append, hp, List.append_nil]
        exact drainCycle_followupLater M _ _ _ _ heq
      · split at h
        · exact absurd h (by simp)
        · rename_i res2 evs2 rem2 heq2
          simp only [Option.some.injEq, Prod.mk.injEq] at h
          obtain ⟨-, hevs, -⟩ := h
          rw [← hevs, pairLogOf_append]
          exact FollowupLater_append
            (drainCycle_followupLater M _ _ _ _ heq) (ih _ _ _ heq2)

/-- runLoop_counts: a finished run consumes a prefix of the arrival
schedule and dispatches exactly the consumed batches plus the produced
follow-ups; the unconsumed batches are returned untouched. -/
theorem runLoop_counts {σ E : Type} (M : HomeModel σ)
    (shut : Except E Unit × List (REv σ))
    (hd : dispatchedOf shut.2 = []) (hf : followupsOf shut.2 = []) :
    ∀ (lfuel dfuel : Nat) (s : σ) (arr : List (List Action))
      {res : Except E Unit} {evs : List (REv σ)} {rem : List (List Action)},
      runLoop M shut dfuel lfuel s arr = some (res, evs, rem) →
      ∃ k, rem = arr.drop k ∧ ∀ x : Action,
        List.count x (dispatchedOf evs) =
          List.count x (arr.take k).flatten +
            List.count x (followupsOf evs) := by
  intro lfuel
  induction lfuel with
  | zero =>
    intro dfuel s arr res evs rem h
    simp [runLoop] at h
  | succ n ih =>
    intro dfuel s arr res evs rem h
    simp only [runLoop] at h
    split at h
    · exact absurd h (by simp)
    · rename_i s2 evs0 arr2 heq
      split at h
      · simp only [Option.some.injEq, Prod.mk.injEq] at h
        obtain ⟨-, hevs, hrem⟩ := h
        obtain ⟨k, hk, hcount⟩ := drainCycle_counts M _ _ _ _ heq
        refine ⟨k, by rw [← hrem, hk], fun x => ?_⟩
        rw [← hevs, dispatchedOf_append, followupsOf_append, hd, hf,
          List.append_nil, List.append_nil]
        simpa using hcount x
      · split at h
        · exact absurd h (by simp)
        · rename_i res2 evs2 rem2 heq2
          simp only [Option.some.injEq, Prod.mk.injEq] at h
          obtain ⟨-, hevs, hrem⟩ := h
          obtain ⟨k1, hk1, hcount1⟩ := drainCycle_counts M _ _ _ _ heq
          obtain ⟨k2, hk2, hcount2⟩ := ih _ _ _ heq2
          refine ⟨k1 + k2, ?_, fun x => ?_⟩
          · rw [← hrem, hk2, hk1, List.drop_drop, Nat.add_comm]
          · rw [← hevs, dispatchedOf_append, followupsOf_append]
            have ht : (arr.take (k1 + k2)).flatten =
                (arr.take k1).flatten ++ ((arr.drop k1).take k2).flatten := by
              rw [List.take_add, List.flatten_append]
            rw [ht]
            have h1 := hcount1 x
            have h2 := hcount2 x
            rw [hk1] at h2
            simp only [List.count_append] at h1 h2 ⊢
            simp only [List.count_nil] at h1
            omega

/-- runLoop_traced: over a whole finished run, the traced actions are
exactly the non-`Tick` dispatched actions, in order. -/
theorem runLoop_traced {σ E : Type} (M : HomeModel σ)
    (shut : Except E Unit × List (REv σ))
    (hd : dispatchedOf shut.2 = []) (ht : tracedActions shut.2 = []) :
    ∀ (lfuel dfuel : Nat) (s : σ) (arr : List (List Action))
      {res : Except E Unit} {evs : List (REv σ)} {rem : List (List Action)},
      runLoop M shut dfuel lfuel s arr = some (res, evs, rem) →
      tracedActions evs =
        (dispatchedOf evs).filter fun a => !(a == Action.Tick) := by
  intro lfuel
  induction lfuel with
  | zero =>
    intro dfuel s arr res evs rem h
    simp [runLoop] at h
  | succ n ih =>
    intro dfuel s arr res evs rem h
    simp only [runLoop] at h
    split at h
    · exact absurd h (by simp)
    · rename_i s2 evs0 arr2 heq
      split at h
      · simp only [Option.some.injEq, Prod.mk.injEq] at h
        obtain ⟨-, hevs, -⟩ := h
        rw [← hevs, tracedActions_append, dispatchedOf_append, hd, ht,
          List.append_nil, List.append_nil]
        exact drainCycle_traced M _ _ _ _ heq
      · split at h
        · exact absurd h (by simp)
        · rename_i res2 evs2 rem2 heq2
          simp only [Option.some.injEq, Prod.mk.injEq] at h
          obtain ⟨-, hevs, -⟩ := h
          rw [← hevs, tracedActions_append, dispatchedOf_append,
            List.filter_append, drainCycle_traced M _ _ _ _ heq,
            ih _ _ _ heq2]

/-- tuiLoop_chunks: a finished render-task loop trace consists of
lock/render/check/unlock iterations ended by the raw-mode teardown. -/
theorem tuiLoop_chunks : ∀ (sig : List Bool) {tr : List TEv},
    tuiLoop sig = some tr → tuiChunks tr := by
  intro sig
  induction sig with
  | nil =>
    intro tr h
    simp [tuiLoop] at h
  | cons stop rest ih =>
    intro tr h
    cases stop with
    | true =>
      simp only [tuiLoop, if_true] at h
      simp only [Option.some.injEq] at h
      rw [← h]
      trivial
    | false =>
      simp only [tuiLoop, Bool.false_eq_true, if_false] at h
      split at h
      · exact absurd h (by simp)
      · rename_i tr2 heq
        simp only [Option.some.injEq] at h
        rw [← h]
        have h2 := ih heq
        simpa [tuiChunks] using h2

/-- tuiLoop_isSome: the render task finishes exactly when the stop signal
is scheduled to arrive at some iteration. -/
theorem tuiLoop_isSome : ∀ sig : List Bool,
    (tuiLoop sig).isSome = true ↔ true ∈ sig := by
  intro sig
  induction sig with
  | nil => simp [tuiLoop]
  | cons stop rest ih =>
    cases stop with
    | true => simp [tuiLoop]
    | false =>
      cases hrec : tuiLoop rest with
      | none => simp [tuiLoop, hrec, ← ih]
      | some tr => simp [tuiLoop, hrec, ← ih]

/-- Claim C1 (counterexample): the claim says that once `should_quit`
becomes true no further dispatch call occurs, even for actions already
drained in the same cycle.  In the run of `env0` on the queue
`[Quit, Noop]`, `dispatch(Quit)` sets `should_quit`, yet `Noop` — drained
in the same cycle — is still dispatched afterwards, because the inner
while loop empties the queue before the quit flag is consulted. -/
theorem c1_counterexample :
    Option.map (fun r => stateLogOf r.2.1)
        (appRun env0 3 2 false [[Action.Quit, Action.Noop]] []) =
      some [(Action.Quit, true), (Action.Noop, true)] ∧
    ¬ QuitStopsAllDispatch M0 [(Action.Quit, true), (Action.Noop, true)] := by
  refine ⟨rfl, fun hq => ?_⟩
  have h2 := hq 0 (by decide) rfl
  exact absurd h2 (by decide)

/-- Claim C1 (amended): once the quit check observes `should_quit` and
shutdown starts (the stop signal to the render task is sent), no further
dispatch call occurs in the run; and whenever `run` returns `Ok`, both
background tasks were awaited.  Actions drained in the same cycle as the
one that set the flag are still dispatched before the check. -/
theorem c1_quit_halts_dispatch {σ E : Type} (env : RunEnv σ E)
    (dfuel lfuel : Nat) (s0 : σ) (arr : List (List Action))
    (late : List Action) {res : Except E Unit} {tr : List (REv σ)}
    {leftover : List Action}
    (h : appRun env dfuel lfuel s0 arr late = some (res, tr, leftover)) :
    quitHaltsDispatch tr = true ∧
      (res = Except.ok () → REv.awaitTuiEv ∈ tr ∧ REv.awaitEventEv ∈ tr) := by
  unfold appRun at h
  split at h
  · simp only [Option.some.injEq, Prod.mk.injEq] at h
    obtain ⟨hres, htr, -⟩ := h
    constructor
    · rw [← htr]
      rfl
    · intro hok
      rw [← hres] at hok
      simp at hok
  · split at h
    · exact absurd h (by simp)
    · rename_i res2 evs rem heq
      simp only [Option.some.injEq, Prod.mk.injEq] at h
      obtain ⟨hres, htr, -⟩ := h
      obtain ⟨hres2, pre, hpre, hdrain⟩ :=
        runLoop_struct env.M (shutdownPhase env) _ _ _ _ heq
      have hnd := shutdownPhase_no_drain env
      constructor
      · rw [← htr, hpre, ← List.append_assoc]
        have hnostop : ∀ e ∈
            ([REv.setTxEv, REv.initEv, REv.spawnTuiEv, REv.spawnEventEv] :
              List (REv σ)) ++ pre, isStopTuiEv e = false := by
          intro e he
          rcases List.mem_append.1 he with h1 | h1
          · simp only [List.mem_cons, List.not_mem_nil, or_false] at h1
            rcases h1 with rfl | rfl | rfl | rfl <;> rfl
          · exact (isDrainEv_not_special e (hdrain e h1)).1
        rw [quitHaltsDispatch_append hnostop]
        exact hnd.2.2.2.2
      · intro hok
        have hok2 : (shutdownPhase env).1 = Except.ok () := by
          rw [← hres2, hres, hok]
        obtain ⟨ha1, ha2⟩ := shutdownPhase_ok_awaits env hok2
        rw [← htr, hpre]
        exact ⟨List.mem_append_right _ (List.mem_append_right _ ha1),
          List.mem_append_right _ (List.mem_append_right _ ha2)⟩

/-- Claim C1 (witness): the amended theorem evaluated on the `Quit, Noop`
run of `env0`. -/
theorem c1_witness :
    quitHaltsDispatch
        [REv.setTxEv, REv.initEv, REv.spawnTuiEv, REv.spawnEventEv,
          REv.traceEv Action.Quit, REv.dispatchEv Action.Quit true none,
          REv.traceEv Action.Noop, REv.dispatchEv Action.Noop true none,
          REv.stopTuiEv, REv.stopEventEv, REv.awaitTuiEv, REv.awaitEventEv,
          REv.retEv] = true ∧
    (REv.awaitTuiEv ∈
        ([REv.setTxEv, REv.initEv, REv.spawnTuiEv, REv.spawnEventEv,
          REv.traceEv Action.Quit, REv.dispatchEv Action.Quit true none,
          REv.traceEv Action.Noop, REv.dispatchEv Action.Noop true none,
          REv.stopTuiEv, REv.stopEventEv, REv.awaitTuiEv, REv.awaitEventEv,
          REv.retEv] : List (REv Bool)) ∧
      REv.awaitEventEv ∈
        ([REv.setTxEv, REv.initEv, REv.spawnTuiEv, REv.spawnEventEv,
          REv.traceEv Action.Quit, REv.dispatchEv Action.Quit true none,
          REv.traceEv Action.Noop, REv.dispatchEv Action.Noop true none,
          REv.stopTuiEv, REv.stopEventEv, REv.awaitTuiEv, REv.awaitEventEv,
          REv.retEv] : List (REv Bool))) :=
  ⟨(c1_quit_halts_dispatch env0 3 2 false [[Action.Quit, Action.Noop]] []
      rfl).1,
    (c1_quit_halts_dispatch env0 3 2 false [[Action.Quit, Action.Noop]] []
      rfl).2 rfl⟩

/-- Claim C2 (counterexample): the claim says every action enqueued before
`run()` returns — including ones enqueued after the final drain cycle
begins — is dispatched exactly once.  In the run of `env0` on the arrival
batch `[Quit]` with `Noop` enqueued during the shutdown window, `Noop` is
still in the queue when `run` returns and is dispatched zero times. -/
theorem c2_counterexample :
    appRun env0 2 1 false [[Action.Quit]] [Action.Noop] =
      some (Except.ok (),
        [REv.setTxEv, REv.initEv, REv.spawnTuiEv, REv.spawnEventEv,
          REv.traceEv Action.Quit, REv.dispatchEv Action.Quit true none,
          REv.stopTuiEv, REv.stopEventEv, REv.awaitTuiEv, REv.awaitEventEv,
          REv.retEv], [Action.Noop]) ∧
    ¬ AllEnqueuedDispatchedOnce [[Action.Quit]] [Action.Noop]
        [REv.setTxEv, REv.initEv, REv.spawnTuiEv, REv.spawnEventEv,
          REv.traceEv Action.Quit, REv.dispatchEv Action.Quit true none,
          REv.stopTuiEv, REv.stopEventEv, REv.awaitTuiEv, REv.awaitEventEv,
          REv.retEv] := by
  refine ⟨rfl, fun hq => ?_⟩
  exact absurd (hq Action.Noop) (by decide)

/-- Claim C2 (amended): every action the loop dequeues is dispatched
exactly once — for every action value, the number of dispatches equals its
occurrences among the consumed arrival batches plus its occurrences among
the produced follow-ups — and the unconsumed batches together with the
actions that arrived after the final drain are returned in the queue,
never dispatched. -/
theorem c2_dequeued_dispatched_once {σ E : Type} (env : RunEnv σ E)
    (dfuel lfuel : Nat) (s0 : σ) (arr : List (List Action))
    (late : List Action) {res : Except E Unit} {tr : List (REv σ)}
    {leftover : List Action}
    (hin : env.initRes = Except.ok ())
    (h : appRun env dfuel lfuel s0 arr late = some (res, tr, leftover)) :
    ∃ k, leftover = (arr.drop k).flatten ++ late ∧ ∀ x : Action,
      List.count x (dispatchedOf tr) =
        List.count x (arr.take k).flatten +
          List.count x (followupsOf tr) := by
  unfold appRun at h
  split at h
  · rename_i e heq0
    rw [hin] at heq0
    exact absurd heq0 (by simp)
  · split at h
    · exact absurd h (by simp)
    · rename_i res2 evs rem heq
      simp only [Option.some.injEq, Prod.mk.injEq] at h
      obtain ⟨-, htr, hleft⟩ := h
      have hnd := shutdownPhase_no_drain env
      obtain ⟨k, hk, hcount⟩ :=
        runLoop_counts env.M (shutdownPhase env) hnd.1 hnd.2.1 _ _ _ _ heq
      refine ⟨k, ?_, fun x => ?_⟩
      · rw [← hleft, hk]
      · rw [← htr, dispatchedOf_append, followupsOf_append]
        have h1 : dispatchedOf
            ([REv.setTxEv, REv.initEv, REv.spawnTuiEv, REv.spawnEventEv] :
              List (REv σ)) = [] := rfl
        have h2 : followupsOf
            ([REv.setTxEv, REv.initEv, REv.spawnTuiEv, REv.spawnEventEv] :
              List (REv σ)) = [] := rfl
        rw [h1, h2, List.nil_append, List.nil_append]
        exact hcount x

/-- Claim C2 (witness): the amended theorem evaluated on the `Quit` run of
`env0` with nothing arriving late. -/
theorem c2_witness :
    ∃ k, ([] : List Action) =
        (([[Action.Quit]] : List (List Action)).drop k).flatten ++ [] ∧
      ∀ x : Action,
        List.count x (dispatchedOf
          [REv.setTxEv, REv.initEv, REv.spawnTuiEv, REv.spawnEventEv,
            REv.traceEv Action.Quit, REv.dispatchEv Action.Quit true none,
            REv.stopTuiEv, REv.stopEventEv, REv.awaitTuiEv, REv.awaitEventEv,
            REv.retEv]) =
          List.count x (([[Action.Quit]] : List (List Action)).take k).flatten +
            List.count x (followupsOf
              [REv.setTxEv, REv.initEv, REv.spawnTuiEv, REv.spawnEventEv,
                REv.traceEv Action.Quit,
                REv.dispatchEv Action.Quit true none,
                REv.stopTuiEv, REv.stopEventEv, REv.awaitTuiEv,
                REv.awaitEventEv, REv.retEv]) :=
  c2_dequeued_dispatched_once env0 2 1 false [[Action.Quit]] [] rfl rfl

/-- Claim C3: every follow-up action returned by a dispatch call of a
finished run is re-enqueued and passed to a strictly later dispatch call
before `run` returns. -/
theorem c3_followup_dispatched_later {σ E : Type} (env : RunEnv σ E)
    (dfuel lfuel : Nat) (s0 : σ) (arr : List (List Action))
    (late : List Action) {res : Except E Unit} {tr : List (REv σ)}
    {leftover : List Action}
    (h : appRun env dfuel lfuel s0 arr late = some (res, tr, leftover)) :
    FollowupLater (pairLogOf tr) := by
  unfold appRun at h
  split at h
  · simp only [Option.some.injEq, Prod.mk.injEq] at h
    obtain ⟨-, htr, -⟩ := h
    rw [← htr]
    exact trivial
  · split at h
    · exact absurd h (by simp)
    · rename_i res2 evs rem heq
      simp only [Option.some.injEq, Prod.mk.injEq] at h
      obtain ⟨-, htr, -⟩ := h
      rw [← htr, pairLogOf_append]
      have h0 : pairLogOf
          ([REv.setTxEv, REv.initEv, REv.spawnTuiEv, REv.spawnEventEv] :
            List (REv σ)) = [] := rfl
      rw [h0, List.nil_append]
      have hnd := shutdownPhase_no_drain env
      exact runLoop_followupLater env.M (shutdownPhase env) hnd.2.2.2.1
        _ _ _ _ heq

/-- Claim C3 (witness): in the run of `env1` where
`ScheduleIncrementCounter` schedules `AddToCounter 1` and `Quit` arrives
before the follow-up, the follow-up is still dispatched later in the same
cycle. -/
theorem c3_witness :
    FollowupLater (pairLogOf
      [REv.setTxEv, REv.initEv, REv.spawnTuiEv, REv.spawnEventEv,
        REv.traceEv Action.ScheduleIncrementCounter,
        REv.dispatchEv Action.ScheduleIncrementCounter (false, 0)
          (some (Action.AddToCounter 1)),
        REv.traceEv Action.Quit,
        REv.dispatchEv Action.Quit (true, 0) none,
        REv.traceEv (Action.AddToCounter 1),
        REv.dispatchEv (Action.AddToCounter 1) (true, 1) none,
        REv.stopTuiEv, REv.stopEventEv, REv.awaitTuiEv, REv.awaitEventEv,
        REv.retEv]) :=
  c3_followup_dispatched_later env1 5 2 (false, 0)
    [[Action.ScheduleIncrementCounter, Action.Quit]] [] rfl

/-- Claim C4: over any finished run, the diagnostic trace stream carries
exactly the dispatched actions that are not `Tick`, in dispatch order: a
trace event is emitted if and only if the drained action differs from
`Tick`. -/
theorem c4_tick_not_traced {σ E : Type} (env : RunEnv σ E)
    (dfuel lfuel : Nat) (s0 : σ) (arr : List (List Action))
    (late : List Action) {res : Except E Unit} {tr : List (REv σ)}
    {leftover : List Action}
    (h : appRun env dfuel lfuel s0 arr late = some (res, tr, leftover)) :
    tracedActions tr =
      (dispatchedOf tr).filter fun a => !(a == Action.Tick) := by
  unfold appRun at h
  split at h
  · simp only [Option.some.injEq, Prod.mk.injEq] at h
    obtain ⟨-, htr, -⟩ := h
    rw [← htr]
    rfl
  · split at h
    · exact absurd h (by simp)
    · rename_i res2 evs rem heq
      simp only [Option.some.injEq, Prod.mk.injEq] at h
      obtain ⟨-, htr, -⟩ := h
      rw [← htr]
      have hnd := shutdownPhase_no_drain env
      have hT := runLoop_traced env.M (shutdownPhase env) hnd.1 hnd.2.2.1
        _ _ _ _ heq
      rw [tracedActions_append, dispatchedOf_append, List.filter_append, hT]
      rfl

/-- Claim C4 (witness): the theorem evaluated on a run of `env0` that
drains a `Tick` followed by a `Quit`: only `Quit` is traced. -/
theorem c4_witness :
    tracedActions
        [REv.setTxEv, REv.initEv, REv.spawnTuiEv, REv.spawnEventEv,
          REv.dispatchEv Action.Tick false none, REv.traceEv Action.Quit,
          REv.dispatchEv Action.Quit true none, REv.stopTuiEv,
          REv.stopEventEv, REv.awaitTuiEv, REv.awaitEventEv, REv.retEv] =
      (dispatchedOf
        [REv.setTxEv, REv.initEv, REv.spawnTuiEv, REv.spawnEventEv,
          REv.dispatchEv Action.Tick false none, REv.traceEv Action.Quit,
          REv.dispatchEv Action.Quit true none, REv.stopTuiEv,
          REv.stopEventEv, REv.awaitTuiEv, REv.awaitEventEv,
          REv.retEv]).filter fun a => !(a == Action.Tick) :=
  c4_tick_not_traced env0 4 2 false [[Action.Tick, Action.Quit]] [] rfl

/-- Claim C5: in every run, the producer handle is installed and `init()`
invoked strictly before the two background tasks are spawned: a failing
`init` aborts `run` with exactly the handle-install and init events having
happened (no task spawned), and a successful `init` makes the trace start
with install, init, and only then the two spawns. -/
theorem c5_init_before_spawn {σ E : Type} (env : RunEnv σ E)
    (dfuel lfuel : Nat) (s0 : σ) (arr : List (List Action))
    (late : List Action) {res : Except E Unit} {tr : List (REv σ)}
    {leftover : List Action}
    (h : appRun env dfuel lfuel s0 arr late = some (res, tr, leftover)) :
    (∀ e, env.initRes = Except.error e →
      res = Except.error e ∧ tr = [REv.setTxEv, REv.initEv]) ∧
    (env.initRes = Except.ok () →
      tr.take 4 =
        [REv.setTxEv, REv.initEv, REv.spawnTuiEv, REv.spawnEventEv]) := by
  unfold appRun at h
  split at h
  · rename_i e0 heq0
    simp only [Option.some.injEq, Prod.mk.injEq] at h
    obtain ⟨hres, htr, -⟩ := h
    refine ⟨fun e he => ?_, fun hok => ?_⟩
    · rw [heq0] at he
      injection he with he2
      subst he2
      exact ⟨hres.symm, htr.symm⟩
    · rw [hok] at heq0
      exact absurd heq0 (by simp)
  · rename_i u heq0
    split at h
    · exact absurd h (by simp)
    · rename_i res2 evs rem heq
      simp only [Option.some.injEq, Prod.mk.injEq] at h
      obtain ⟨-, htr, -⟩ := h
      refine ⟨fun e he => ?_, fun _ => ?_⟩
      · rw [heq0] at he
        exact absurd he (by simp)
      · rw [← htr]
        exact List.take_left' rfl

/-- Claim C5 (witness): the theorem evaluated on `envFail`, whose `init()`
fails with "boom": the error propagates and no spawn event occurs. -/
theorem c5_witness :
    appRun envFail 1 1 false [] [] =
      some (Except.error "boom", [REv.setTxEv, REv.initEv], []) ∧
    ((Except.error "boom" : Except String Unit) = Except.error "boom" ∧
      ([REv.setTxEv, REv.initEv] : List (REv Bool)) =
        [REv.setTxEv, REv.initEv]) :=
  ⟨rfl, (c5_init_before_spawn envFail 1 1 false [] [] rfl).1 "boom" rfl⟩

/-- Claim C7: if `tx.send` fails in an event-task iteration (the queue is
closed), the `unwrap` aborts the task at once — nothing is forwarded from
that iteration on and the outcome is the panic that surfaces as an error
of the task's join handle — regardless of any later scheduled
iterations. -/
theorem c7_send_failure_fatal (a : Action) (stop : Bool)
    (rest : List (Action × Bool × Bool)) :
    eventLoop ((a, false, stop) :: rest) = some ([], EOut.panicked) := rfl

/-- Claim C8: if awaiting the render task fails during shutdown, `run`
returns that join error immediately and the event task is never awaited. -/
theorem c8_first_join_failure {σ E : Type} (env : RunEnv σ E)
    (dfuel lfuel : Nat) (s0 : σ) (arr : List (List Action))
    (late : List Action) (e : E) {res : Except E Unit} {tr : List (REv σ)}
    {leftover : List Action}
    (h : appRun env dfuel lfuel s0 arr late = some (res, tr, leftover))
    (hj : env.tuiJoin = Except.error e)
    (hstop : REv.stopTuiEv ∈ tr) :
    res = Except.error e ∧ REv.awaitEventEv ∉ tr := by
  unfold appRun at h
  split at h
  · simp only [Option.some.injEq, Prod.mk.injEq] at h
    obtain ⟨-, htr, -⟩ := h
    rw [← htr] at hstop
    simp at hstop
  · split at h
    · exact absurd h (by simp)
    · rename_i res2 evs rem heq
      simp only [Option.some.injEq, Prod.mk.injEq] at h
      obtain ⟨hres, htr, -⟩ := h
      obtain ⟨hres2, pre, hpre, hdrain⟩ :=
        runLoop_struct env.M (shutdownPhase env) _ _ _ _ heq
      have hsp := shutdownPhase_tuiFail env e hj
      constructor
      · rw [← hres, hres2, hsp]
      · rw [← htr, hpre, hsp]
        intro hmem
        rcases List.mem_append.1 hmem with h1 | h1
        · simp at h1
        · rcases List.mem_append.1 h1 with h2 | h2
          · exact (isDrainEv_not_special _ (hdrain _ h2)).2 rfl
          · simp at h2

/-- Claim C8 (witness): the theorem evaluated on `envTuiJoinFail`, whose
render-task join fails with "boom" on a run that quits immediately. -/
theorem c8_witness :
    (Except.error "boom" : Except String Unit) = Except.error "boom" ∧
    REv.awaitEventEv ∉
      ([REv.setTxEv, REv.initEv, REv.spawnTuiEv, REv.spawnEventEv,
        REv.stopTuiEv, REv.stopEventEv, REv.awaitTuiEv] : List (REv Bool)) :=
  c8_first_join_failure envTuiJoinFail 1 1 true [] [] "boom" rfl rfl
    (by decide)

/-- Claim C9: a shutdown-signal send whose receiver is gone is silently
discarded by `unwrap_or`: the whole result of `run` — value, trace, and
leftover queue — is independent of whether either stop-channel receiver is
still alive, and with both joins succeeding the quit path yields `Ok`. -/
theorem c9_send_failure_invisible {σ E : Type} (M : HomeModel σ)
    (ir tj ej : Except E Unit) (ta ea ta2 ea2 : Bool)
    (dfuel lfuel : Nat) (s0 : σ) (arr : List (List Action))
    (late : List Action) :
    appRun ⟨M, ir, tj, ej, ta, ea⟩ dfuel lfuel s0 arr late =
      appRun ⟨M, ir, tj, ej, ta2, ea2⟩ dfuel lfuel s0 arr late ∧
    (shutdownPhase ⟨M, ir, Except.ok (), Except.ok (), ta, ea⟩).1 =
      Except.ok () :=
  ⟨rfl, rfl⟩

/-- Claim C6 (counterexample): the claim says each render-task iteration
releases the model lock before the non-blocking shutdown check.  In the
code the `MutexGuard` lives to the end of the loop body, so the check
happens first: on the run that stops at once, the check event precedes the
unlock event. -/
theorem c6_counterexample : ¬ ClaimC6Order := by
  intro hc
  have h2 := hc [true]
    [TEv.enterEv, TEv.lockEv, TEv.renderEv, TEv.checkStopEv, TEv.unlockEv,
      TEv.exitEv] rfl
  exact absurd h2 (by decide)

/-- Claim C6 (amended): each render-task iteration acquires the lock,
renders, then performs the non-blocking shutdown check while still holding
the lock, and releases the lock at the end of the iteration; iterations
follow each other immediately (no timer event exists), the task tears down
raw mode exactly when it exits, and it exits exactly when the stop signal
arrives at some iteration. -/
theorem c6_render_loop_structure (sig : List Bool) :
    ((tuiTask sig).isSome = true ↔ true ∈ sig) ∧
    ∀ tr, tuiTask sig = some tr →
      ∃ rest, tr = TEv.enterEv :: rest ∧ tuiChunks rest := by
  constructor
  · have h2 := tuiLoop_isSome sig
    unfold tuiTask
    cases hrec : tuiLoop sig with
    | none => simpa [hrec] using h2
    | some tr => simpa [hrec] using h2
  · intro tr h
    unfold tuiTask at h
    cases hrec : tuiLoop sig with
    | none =>
      rw [hrec] at h
      simp at h
    | some tr2 =>
      rw [hrec] at h
      simp only [Option.map_some', Option.some.injEq] at h
      exact ⟨tr2, h.symm, tuiLoop_chunks sig hrec⟩

/-- Claim C6 (witness): the amended theorem evaluated on the schedule
where the stop signal arrives at the second iteration. -/
theorem c6_witness :
    (tuiTask [false, true]).isSome = true ∧
    ∃ rest,
      ([TEv.enterEv, TEv.lockEv, TEv.renderEv, TEv.checkStopEv, TEv.unlockEv,
        TEv.lockEv, TEv.renderEv, TEv.checkStopEv, TEv.unlockEv,
        TEv.exitEv] : List TEv) = TEv.enterEv :: rest ∧ tuiChunks rest :=
  ⟨(c6_render_loop_structure [false, true]).1.mpr (by decide),
    (c6_render_loop_structure [false, true]).2 _ rfl⟩

/-- Claim C10: `is_markdown_file` succeeds exactly on an existing regular
file whose extension is `md`, `qmd`, `rmd`, or `markdown` (so `qmd` and
`rmd` are accepted although the rejection message names only `.md` and
`.markdown`), and in every other case — including a path with no
extension — it returns an error value rather than diverging. -/
theorem c10_is_markdown_file_spec (p : FsPath) :
    (is_markdown_file p = Except.ok () ↔
      (p.pathExists = true ∧ p.isFile = true ∧
        (p.extension = some "md" ∨ p.extension = some "qmd" ∨
          p.extension = some "rmd" ∨ p.extension = some "markdown"))) ∧
    (is_markdown_file p ≠ Except.ok () →
      ∃ msg, is_markdown_file p = Except.error msg) := by
  obtain ⟨pe, pf, ext⟩ := p
  constructor
  · cases pe with
    | false => simp [is_markdown_file]
    | true =>
      cases pf with
      | false => simp [is_markdown_file]
      | true =>
        cases ext with
        | none => simp [is_markdown_file]
        | some str =>
          simp only [is_markdown_file, Bool.not_true, Bool.false_eq_true,
            if_false, Option.some.injEq, true_and]
          by_cases hs :
              str = "md" ∨ str = "qmd" ∨ str = "rmd" ∨ str = "markdown"
          · have hb : (str == "md" || str == "qmd" || str == "rmd" ||
                str == "markdown") = true := by
              rcases hs with rfl | rfl | rfl | rfl <;> rfl
            simp [hb, hs]
          · have hb : (str == "md" || str == "qmd" || str == "rmd" ||
                str == "markdown") = false := by
              rcases hb2 : (str == "md" || str == "qmd" || str == "rmd" ||
                str == "markdown") with _ | _
              · rfl
              · exact absurd (by simpa [Bool.or_eq_true, beq_iff_eq,
                  or_assoc] using hb2) hs
            simp [hb, hs]
  · intro h
    cases hv : is_markdown_file ⟨pe, pf, ext⟩ with
    | ok u =>
      cases u
      exact absurd hv h
    | error msg => exact ⟨msg, rfl⟩

/-- Claim C10 (witness): the theorem evaluated on an existing `qmd` file
(accepted) and on an existing file without an extension (rejected with an
error value). -/
theorem c10_witness :
    is_markdown_file ⟨true, true, some "qmd"⟩ = Except.ok () ∧
    ∃ msg, is_markdown_file ⟨true, true, none⟩ = Except.error msg :=
  ⟨(c10_is_markdown_file_spec ⟨true, true, some "qmd"⟩).1.mpr
      ⟨rfl, rfl, Or.inr (Or.inl rfl)⟩,
    (c10_is_markdown_file_spec ⟨true, true, none⟩).2
      (fun hcontra => Except.noConfusion hcontra)⟩

end App
